import Mathlib

/-!
Shallow embedding of the Typed Eva static type checker
(src/EvaTC.js and src/Type.js) and verification of its specification.

Expressions are the parsed trees the checker receives: JS numbers, strings
(tokens, where string literals carry their quote characters), booleans, the
JS value `undefined` (which arises from out-of-range indexing and
destructuring), and arrays.  Types mirror the Type.js hierarchy; heap
identity (JS reference equality, used by `===` checks) is modelled by an
allocation id carried by every constructed type value.  The mutable JS state
(the registry of named types stored as properties on the Type class, and the
parent-linked TypeEnvironment frames) is threaded explicitly as a state
record.  JS exceptions (both the checker's deliberate throws and runtime
TypeError/ReferenceError crashes) are modelled with Except.
-/

namespace EvaTC

/-- Parsed expression trees as the checker receives them. -/
inductive Exp where
  | num (n : Int)
  | sym (s : String)
  | bool (b : Bool)
  | undefE
  | list (es : List Exp)

/-- Errors: the checker's own throws plus modelled JS runtime crashes.
`fuel` is an artifact of the fueled evaluator, not a program behaviour. -/
inductive Err where
  | fuel
  | jsError (msg : String)
  | unknownType (name : String)
  | duplicateType (name : String)
  | typeMismatch
  | operatorType
  | arity
  | unknownOperator
  | noActualTypes
  | unknownClass (name : String)
  | unknownExpr
  | returnMismatch
  | unbound (name : String)

/-- Type values of Type.js.  `id` models JS object identity for the
constructed (non-primitive) variants; the five primitives are singletons
identified by name. -/
inductive Ty where
  | prim (name : String)
  | fn (name : Option String) (paramTypes : List Ty) (returnType : Ty) (id : Nat)
  | alias (name : String) (parent : Ty) (id : Nat)
  | cls (name : String) (superClass : Ty) (envRef : Nat) (id : Nat)
  | union (name : String) (optionTypes : List Ty) (id : Nat)
  | generic (name : String) (genericTypes : List String) (params : Exp)
      (returnType : Exp) (body : Exp) (env : Nat) (id : Nat)

def tyNumber : Ty := .prim "number"

def tyString : Ty := .prim "string"

def tyBoolean : Ty := .prim "boolean"

def tyNull : Ty := .prim "null"

def tyAny : Ty := .prim "any"

mutual

/-- JS string coercion of an expression (String(x) / template interpolation):
arrays join their elements with commas, `undefined` prints as "undefined"
at top level but as "" inside an array. -/
def jsToString : Exp → String
  | .num n => toString n
  | .sym s => s
  | .bool b => cond b "true" "false"
  | .undefE => "undefined"
  | .list es => String.intercalate "," (jsStrList es)

def jsStrList : List Exp → List String
  | [] => []
  | .undefE :: es => "" :: jsStrList es
  | e :: es => jsToString e :: jsStrList es

end

mutual

/-- Type.getName / the `name` property, which every Type.js constructor
fills in eagerly (Type.Function computes `Fn<ret<p1,p2,...>>`). -/
def getName : Ty → String
  | .prim n => n
  | .fn (some n) _ _ _ => n
  | .fn none ps r _ =>
      "Fn<" ++ getName r ++
        (match ps with
          | [] => ""
          | _ => "<" ++ String.intercalate "," (getNames ps) ++ ">") ++ ">"
  | .alias n _ _ => n
  | .cls n _ _ _ => n
  | .union n _ _ => n
  | .generic n _ _ _ _ _ _ => n

def getNames : List Ty → List String
  | [] => []
  | t :: ts => getName t :: getNames ts

end

/-- JS reference equality (`===`) between two type values: same allocation.
Primitives are singletons, so name equality is identity for them. -/
def jsIs : Ty → Ty → Bool
  | .prim a, .prim b => a == b
  | .fn _ _ _ i, .fn _ _ _ j => i == j
  | .alias _ _ i, .alias _ _ j => i == j
  | .cls _ _ _ i, .cls _ _ _ j => i == j
  | .union _ _ i, .union _ _ j => i == j
  | .generic _ _ _ _ _ _ i, .generic _ _ _ _ _ _ j => i == j
  | _, _ => false

mutual

/-- Size of a type value: an upper bound on the nesting depth of the JS
`equals` recursion starting from it. -/
def tySize : Ty → Nat
  | .prim _ => 1
  | .fn _ ps r _ => 1 + tySizeL ps + tySize r
  | .alias _ p _ => 1 + tySize p
  | .cls _ s _ _ => 1 + tySize s
  | .union _ os _ => 1 + tySizeL os
  | .generic _ _ _ _ _ _ _ => 1

def tySizeL : List Ty → Nat
  | [] => 0
  | t :: ts => tySize t + tySizeL ts

end

/-- `some(t => t.equals(other))` over a list, left to right with
short-circuiting (a crash in an early element propagates), parameterized
by the equality used for the elements. -/
def anyEqualsF (eq : Ty → Ty → Except Err Bool) : List Ty → Ty → Except Err Bool
  | [], _ => pure false
  | t :: ts, b => do
      let r ← eq t b
      if r then pure true else anyEqualsF eq ts b

/-- The loop of Type.Union.includesAll: the receiver must equal every
listed type, left to right, short-circuiting on false. -/
def allEqualsF (eq : Ty → Ty → Except Err Bool) (u : Ty) :
    List Ty → Except Err Bool
  | [] => pure true
  | t :: ts => do
      let r ← eq u t
      if r then allEqualsF eq u ts else pure false

/-- The parameter loop of Type.Function.equals (lengths already equal). -/
def eqListF (eq : Ty → Ty → Except Err Bool) : List Ty → List Ty → Except Err Bool
  | a :: as, b :: bs => do
      let r ← eq a b
      if r then eqListF eq as bs else pure false
  | _, _ => pure true

/-- The `equals` methods of Type.js, dispatched on the receiver, with an
explicit recursion bound (each nested `equals` strictly shrinks the summed
sizes of the two values, so `sizeOf a + sizeOf b` units always suffice —
see the
`equals` wrapper below).
Type.Alias.equals compares names then delegates to the parent;
Type.Function.equals reads `other.paramTypes`, which crashes with a JS
TypeError when `other` is not a function type; Type.Class.equals and
Type.Union.equals first test reference identity and delegate through
aliases; the base Type.equals delegates to alias/union arguments and
otherwise compares names. -/
def equalsF : Nat → Ty → Ty → Except Err Bool
  | 0, _, _ => .error .fuel
  | fuel + 1, a, b =>
      match a, b with
      | .alias n p _, b =>
          if n == getName b then pure true else equalsF fuel p b
      | .fn _ ps r _, b =>
          match b with
          | .fn _ ps2 r2 _ =>
              if ps.length ≠ ps2.length then pure false
              else do
                let pb ← eqListF (equalsF fuel) ps ps2
                if pb then equalsF fuel r r2 else pure false
          | _ => .error (.jsError "cannot read paramTypes of a non-function")
      | .cls n sup e i, b =>
          if jsIs (.cls n sup e i) b then pure true
          else
            match b with
            | .alias m p _ =>
                if m == n then pure true else equalsF fuel p (.cls n sup e i)
            | bb =>
                if jsIs sup tyNull then pure false else equalsF fuel sup bb
      | .union n os i, b =>
          if jsIs (.union n os i) b then pure true
          else
            match b with
            | .alias m p _ =>
                if m == n then pure true else equalsF fuel p (.union n os i)
            | .union _ os2 _ =>
                if os2.length ≠ os.length then pure false
                else allEqualsF (equalsF fuel) (.union n os i) os2
            | bb => anyEqualsF (equalsF fuel) os bb
      | a, b =>
          match b with
          | .alias m p _ => if m == getName a then pure true else equalsF fuel p a
          | .union m os i =>
              if jsIs (.union m os i) a then pure true
              else anyEqualsF (equalsF fuel) os a
          | _ => pure (getName a == getName b)

/-- Type.js structural equality.  `tySize a + tySize b` bounds the nesting
depth of the JS recursion, so the fueled evaluation is exact: it never
yields the fuel artifact. -/
def equals (a b : Ty) : Except Err Bool := equalsF (tySize a + tySize b) a b

mutual

/-- The receiver's `equals` applied to the JS value `undefined`: most
variants crash reading a property of undefined, but a class whose
superclass chain ends at Type.null returns false, and a union maps
`some` over its options. -/
def equalsUndef : Ty → Except Err Bool
  | .cls _ sup _ _ =>
      if jsIs sup tyNull then pure false else equalsUndef sup
  | .union _ os _ => anyUndef os
  | _ => .error (.jsError "cannot read properties of undefined")

def anyUndef : List Ty → Except Err Bool
  | [] => pure false
  | t :: ts => do
      let r ← equalsUndef t
      if r then pure true else anyUndef ts

end

/-- `a.equals(b)` where `b` may be the JS value undefined. -/
def equalsU (a : Ty) (b : Option Ty) : Except Err Bool :=
  match b with
  | some t => equals a t
  | none => equalsUndef a

/-- EvaTC._expect: throws a TypeMismatch unless actual equals expected,
returning the actual type; calling it on an undefined actual crashes. -/
def expectT (actual expected : Option Ty) : Except Err (Option Ty) :=
  match actual with
  | none => .error (.jsError "cannot read properties of undefined")
  | some a => do
      let r ← equalsU a expected
      if r then pure actual else .error .typeMismatch

/-- Type.Union.includesAll: length equality with the supplied list, then
the receiver union must equal every listed type. -/
def includesAll (u : Ty) (types : List Ty) : Except Err Bool :=
  match u with
  | .union n os i =>
      if types.length ≠ os.length then pure false
      else allEqualsF equals (.union n os i) types
  | _ => .error (.jsError "includesAll is not a function")

/-- `allowedTypes.some(t => t.equals(type_))` from _expectOperatorType. -/
def anyAllowed : List Ty → Option Ty → Except Err Bool
  | [], _ => pure false
  | a :: as, t => do
      let r ← equalsU a t
      if r then pure true else anyAllowed as t

/-- EvaTC._expectOperatorType: a union operand must includeAll the allowed
types; any other operand must be equalled by some allowed type. -/
def expectOperatorType (t : Option Ty) (allowed : List Ty) : Except Err Unit :=
  match t with
  | some (.union n os i) => do
      let r ← includesAll (.union n os i) allowed
      if r then pure () else .error .operatorType
  | _ => do
      let r ← anyAllowed allowed t
      if r then pure () else .error .operatorType

/-- Allowed operand types: {string, number} for +. -/
def plusTypes : List Ty := [tyString, tyNumber]

/-- Allowed operand types: {number} for -, *, /. -/
def numTypes : List Ty := [tyNumber]

/-- EvaTC._getOperandTypesForOperator (a strict === switch on the head). -/
def operandTypesFor : Exp → Except Err (List Ty)
  | .sym "+" => pure plusTypes
  | .sym "-" => pure numTypes
  | .sym "/" => pure numTypes
  | .sym "*" => pure numTypes
  | _ => .error .unknownOperator

/-- Association list lookup (JS object / Type-class property read). -/
def lookupA {α : Type} : List (String × α) → String → Option α
  | [], _ => none
  | (k2, v) :: rest, k => if k2 == k then some v else lookupA rest k

/-- Association list write with object semantics: overwrite in place or
append a fresh key. -/
def setA {α : Type} : List (String × α) → String → α → List (String × α)
  | [], k, v => [(k, v)]
  | (k2, v2) :: rest, k, v =>
      if k2 == k then (k2, v) :: rest else (k2, v2) :: setA rest k v

/-- Modelled from the spec: one TypeEnvironment frame (src/TypeEnvironment.js
is not among the sources).  Per spec section 4.1 a scope is a record of
bindings with an optional parent link; bindings may hold the JS value
undefined. -/
structure Frame where
  parent : Option Nat
  record : List (String × Option Ty)

/-- The threaded mutable JS state: the session registry (named properties of
the Type class: the five primitives, declared types/classes, and memoized
function descriptors), the arena of TypeEnvironment frames, and the next
allocation id.  Metadata properties of the Type constructor itself (its
static methods and `name`/`length`) are not modelled; no parser-produced
token collides with them. -/
structure St where
  reg : List (String × Ty)
  frames : List Frame
  nextId : Nat

/-- Type.hasOwnProperty / property read on the registry. -/
def regLookup (st : St) (k : String) : Option Ty := lookupA st.reg k

/-- `Type[name] = t`. -/
def regSet (st : St) (k : String) (t : Ty) : St :=
  { st with reg := setA st.reg k t }

/-- Modelled from the spec: TypeEnvironment creation — `child(bindings)` of
spec section 4.1: a new scope pre-populated with the given bindings and
parented to the given scope.  Returns the new frame's reference. -/
def pushFrame (st : St) (parent : Option Nat) (record : List (String × Option Ty)) :
    Nat × St :=
  (st.frames.length, { st with frames := st.frames ++ [⟨parent, record⟩] })

/-- Modelled from the spec: TypeEnvironment.define — inserts or overwrites
in the current scope only (spec section 4.1). -/
def defineVar (st : St) (ref : Nat) (k : String) (v : Option Ty) : St :=
  match st.frames.get? ref with
  | none => st
  | some f =>
      { st with frames := st.frames.set ref { f with record := setA f.record k v } }

/-- Modelled from the spec: TypeEnvironment.lookup — searches the current
scope then each parent in turn, failing with UnboundName when absent
everywhere (spec section 4.1).  The step count is bounded by the number of
frames, which parent links (always older frames) cannot exceed. -/
def envLookupGo (st : St) : Nat → Nat → String → Except Err (Option Ty)
  | 0, _, _ => .error (.jsError "environment chain too long")
  | steps + 1, ref, n =>
      match st.frames.get? ref with
      | none => .error (.jsError "missing scope frame")
      | some f =>
          match lookupA f.record n with
          | some v => .ok v
          | none =>
              match f.parent with
              | some p => envLookupGo st steps p n
              | none => .error (.unbound n)

def envLookup (st : St) (ref : Nat) (n : String) : Except Err (Option Ty) :=
  envLookupGo st (st.frames.length + 1) ref n

/-- Fresh allocation id (JS object creation). -/
def freshId (st : St) : Nat × St :=
  (st.nextId, { st with nextId := st.nextId + 1 })

/-- The scope a class value carries (`.env`); a generic function value also
has an `env` property (its closure).  Other type values have none. -/
def envOf : Ty → Option Nat
  | .cls _ _ r _ => some r
  | .generic _ _ _ _ _ e _ => some e
  | _ => none

/-- `classType.superClass` (undefined on non-class values). -/
def superOf : Ty → Option Ty
  | .cls _ s _ _ => some s
  | _ => none

/-- instanceType.getField(name): only class values have the method; an
undefined or non-class receiver crashes.  Field lookup walks the class's
own-and-inherited scope chain. -/
def getField (st : St) (t : Option Ty) (name : String) : Except Err (Option Ty) :=
  match t with
  | none => .error (.jsError "cannot read properties of undefined")
  | some (.cls _ _ ref _) => envLookup st ref name
  | some _ => .error (.jsError "getField is not a function")

-- ------------------------------------------------------------------
-- Character/string helpers mirroring the checker's regexes.

/-- \w of JS regexes: [A-Za-z0-9_]. -/
def isWordChar (c : Char) : Bool := c.isAlphanum || c == '_'

/-- The character class [a-z,\s] of the function-descriptor regex. -/
def isLowerComma (c : Char) : Bool := c.isLower || c == ',' || c.isWhitespace

/-- One character of _isVariableName's class [+\-*/<>=a-zA-Z0-9_:]. -/
def isVarChar (c : Char) : Bool :=
  c == '+' || c == '-' || c == '*' || c == '/' || c == '<' || c == '>' ||
  c == '=' || c.isAlphanum || c == '_' || c == ':'

/-- EvaTC._isVariableName: /^[+\-*\/<>=a-zA-Z0-9_:]+$/. -/
def isVarName (s : String) : Bool := !s.data.isEmpty && s.data.all isVarChar

/-- EvaTC._isString: a token whose first and last characters are quotes. -/
def isStringLit (s : String) : Bool :=
  !s.data.isEmpty && s.data.head? == some '"' && s.data.getLast? == some '"'

/-- One of the four arithmetic operator characters, [+\-*\/]. -/
def isOpChar (c : Char) : Bool := c == '+' || c == '-' || c == '*' || c == '/'

/-- /^<[^>]+>$/ — the generic-parameter-list and actual-type-list shape. -/
def regexAngle (s : String) : Bool :=
  match s.data with
  | '<' :: rest =>
      rest.getLast? == some '>' && !rest.dropLast.isEmpty &&
        rest.dropLast.all (fun c => c != '>')
  | _ => false

/-- slice(1, -1) on a string: drop the first and last characters. -/
def stripEnds (s : String) : String := (s.drop 1).dropRight 1

/-- split on a single character (JS split(',') with a plain separator). -/
def splitOnCharAux (c : Char) : List Char → List Char → List (List Char)
  | [], acc => [acc.reverse]
  | x :: xs, acc =>
      if x == c then acc.reverse :: splitOnCharAux c xs []
      else splitOnCharAux c xs (x :: acc)

def splitOnChar (c : Char) (s : String) : List String :=
  (splitOnCharAux c s.data []).map String.mk

/-- split(/,\s*/g): a separator is a comma plus the whitespace following it,
so every piece after the first loses its leading whitespace. -/
def splitParams (s : String) : List String :=
  match splitOnChar ',' s with
  | [] => []
  | p :: rest => p :: rest.map (fun q => String.mk (q.data.dropWhile Char.isWhitespace))

/-- startsWith "Fn<". -/
def startsFn (s : String) : Bool := s.data.take 3 == ['F', 'n', '<']

/-- /^Fn<(\w+)<([a-z,\s]+)>>$/ — returns (return descriptor, params text). -/
def matchFnFull (s : String) : Option (String × String) :=
  let cs := s.data
  if cs.take 3 == ['F', 'n', '<'] && decide (cs.length ≥ 6) &&
      cs.drop (cs.length - 2) == ['>', '>'] then
    let core := ((cs.drop 3).dropLast).dropLast
    let r := core.takeWhile isWordChar
    match core.drop r.length with
    | '<' :: ps =>
        if !r.isEmpty && !ps.isEmpty && ps.all isLowerComma then
          some (String.mk r, String.mk ps)
        else none
    | _ => none
  else none

/-- /^Fn<(\w+)>$/ — returns the return descriptor. -/
def matchFnRet (s : String) : Option String :=
  let cs := s.data
  if cs.take 3 == ['F', 'n', '<'] && cs.getLast? == some '>' then
    let core := (cs.drop 3).dropLast
    if !core.isEmpty && core.all isWordChar then some (String.mk core) else none
  else none

/-- Resolve a list of descriptor strings left to right, threading state,
with the supplied resolver. -/
def resolveSymsF (fs : St → Exp → Except Err (Ty × St)) (st : St) :
    List String → Except Err (List Ty × St)
  | [] => pure ([], st)
  | p :: rest => do
      let (t, st₁) ← fs st (.sym p)
      let (ts, st₂) ← resolveSymsF fs st₁ rest
      pure (t :: ts, st₂)

/-- Type.fromString: registry lookup first, then the Fn<...> grammar with
memoization of the parsed result under the exact descriptor string; unknown
descriptors fail.  A non-string descriptor is coerced for the property
lookup and then crashes at typeStr.startsWith.  The fuel bounds descriptor
nesting (the grammar's components cannot themselves be Fn<...> forms, so
any fuel of at least 2 is exact). -/
def fromString : Nat → St → Exp → Except Err (Ty × St)
  | 0, _, _ => .error .fuel
  | fuel + 1, st, e =>
      match e with
      | .sym s =>
          match regLookup st s with
          | some t => pure (t, st)
          | none =>
              if startsFn s then
                match matchFnFull s with
                | some (r, ps) => do
                    let (paramTypes, st₁) ←
                      resolveSymsF (fromString fuel) st (splitParams ps)
                    let (retTy, st₂) ← fromString fuel st₁ (.sym r)
                    let (i, st₃) := freshId st₂
                    let t := Ty.fn (some s) paramTypes retTy i
                    pure (t, regSet st₃ s t)
                | none =>
                    match matchFnRet s with
                    | some r => do
                        let (retTy, st₁) ← fromString fuel st (.sym r)
                        let (i, st₂) := freshId st₁
                        let t := Ty.fn (some s) [] retTy i
                        pure (t, regSet st₂ s t)
                    | none => .error (.unknownType s)
              else .error (.unknownType s)
      | e2 =>
          match regLookup st (jsToString e2) with
          | some t => pure (t, st)
          | none => .error (.jsError "typeStr.startsWith is not a function")

-- ------------------------------------------------------------------
-- JS array/string destructuring and indexing.

/-- `s[i]` on a JS string: a one-character string, or undefined. -/
def charAt (s : String) (i : Nat) : Exp :=
  match s.data.get? i with
  | some c => .sym (String.mk [c])
  | none => .undefE

/-- `const [a, b] = e`: arrays and strings are iterable (strings yield
one-character strings); numbers, booleans and undefined crash. -/
def destructure2 : Exp → Except Err (Exp × Exp)
  | .list es => pure (es.getD 0 .undefE, es.getD 1 .undefE)
  | .sym s => pure (charAt s 0, charAt s 1)
  | _ => .error (.jsError "expression is not iterable")

/-- `const [a, b, c] = e`. -/
def destructure3 : Exp → Except Err (Exp × Exp × Exp)
  | .list es => pure (es.getD 0 .undefE, es.getD 1 .undefE, es.getD 2 .undefE)
  | .sym s => pure (charAt s 0, charAt s 1, charAt s 2)
  | _ => .error (.jsError "expression is not iterable")

/-- `e[i]`: indexing undefined crashes; indexing a number or boolean
yields undefined. -/
def elemAtE : Exp → Nat → Except Err Exp
  | .undefE, _ => .error (.jsError "cannot read properties of undefined")
  | .list es, i => pure (es.getD i .undefE)
  | .sym s, i => pure (charAt s i)
  | _, _ => pure .undefE

-- ------------------------------------------------------------------
-- Generic-function helpers.

/-- The generic-types Map: a key may be present with value undefined (set
from an out-of-range actual-type index). -/
def GMap : Type := List (String × Option String)

def gmapSet (m : GMap) (k : String) (v : Option String) : GMap := setA m k v

def gmapGet (m : GMap) (k : String) : Option (Option String) := lookupA m k

/-- EvaTC._getGenericTypesMap: genericTypes[i] ↦ actualTypes[i]; the loop
runs over the generic parameter names only, so extra actual types are
dropped and missing ones map the name to undefined. -/
def mkGenericMap (gs : List String) (actuals : List String) : GMap :=
  (gs.enum).foldl (fun m gi => gmapSet m gi.2 (actuals.get? gi.1)) []

/-- Substitute one raw descriptor through the map (Map.has on a non-string
key compares by reference and never hits). -/
def bindParamType (m : GMap) (t : Exp) : Exp :=
  match t with
  | .sym s =>
      match gmapGet m s with
      | some (some v) => .sym v
      | some none => .undefE
      | none => .sym s
  | t2 => t2

/-- The parameter loop of EvaTC._bindFunctionTypes: destructure each raw
parameter pair and rewrite generic descriptors to actuals. -/
def bindParams (m : GMap) : List Exp → Except Err (List (Exp × Exp))
  | [] => pure []
  | e :: es => do
      let (n, t) ← destructure2 e
      let rest ← bindParams m es
      pure ((n, bindParamType m t) :: rest)

/-- Iterating `params` with a C-style loop over `.length`: arrays give
their elements, strings their characters, and numbers/booleans have an
undefined length so the loop body never runs. -/
def paramElems : Exp → List Exp
  | .list es => es
  | .sym s => s.data.map (fun c => Exp.sym (String.mk [c]))
  | _ => []

/-- EvaTC._extractActualCallTypes: match exp[1] (string-coerced) against
/^<([^>]+)>$/ and split the inside on commas; no match is an error. -/
def extractActualCallTypes (es : List Exp) : Except Err (List String) :=
  let a := jsToString (es.getD 1 .undefE)
  if regexAngle a then pure (splitOnChar ',' (stripEnds a))
  else .error .noActualTypes

/-- The parameters argument received by EvaTC._tcFunction: either the raw
expression from a lambda form, or the already-destructured pairs built by
_bindFunctionTypes for a generic call. -/
inductive ParamsArg where
  | raw (e : Exp)
  | bound (l : List (Exp × Exp))

/-- params.forEach: non-array raw params crash; bound pairs are iterated
directly. -/
def paramsItems : ParamsArg → Except Err (List (Sum Exp (Exp × Exp)))
  | .raw (.list es) => pure (es.map Sum.inl)
  | .raw _ => .error (.jsError "params.forEach is not a function")
  | .bound l => pure (l.map Sum.inr)

-- ------------------------------------------------------------------
-- Function-call checking (no recursion into tc).

/-- The argument loop of EvaTC._checkFunctionCall: an `any` parameter
(reference-compared against the Type.any singleton) skips the check. -/
def checkArgsLoop : List Ty → List (Option Ty) → Except Err Unit
  | pt :: pts, a :: as => do
      if jsIs pt tyAny then pure () else do
        let _ ← expectT a (some pt)
        pure ()
      checkArgsLoop pts as
  | _, _ => pure ()

/-- EvaTC._checkFunctionCall: reading paramTypes of a non-function callee
crashes; the arity throw references the misspelled variable `epx` and so
raises a ReferenceError; otherwise each argument must equal its parameter
type unless the parameter is `any`; the result is the declared return
type. -/
def checkFunctionCall (fn : Option Ty) (args : List (Option Ty)) :
    Except Err (Option Ty) :=
  match fn with
  | some (.fn _ pts rt _) =>
      if pts.length ≠ args.length then .error (.jsError "epx is not defined")
      else do
        checkArgsLoop pts args
        pure (some rt)
  | _ => .error (.jsError "cannot read paramTypes of the callee")

/-- The signature-parameter mapping of the def branch:
`params.map(([name, typeStr]) => Type.fromString(typeStr))`. -/
def defSigGo (fuel : Nat) (st : St) : List Exp → Except Err (List Ty × St)
  | [] => pure ([], st)
  | e :: rest => do
      let (_, t) ← destructure2 e
      let (pt, st₁) ← fromString fuel st t
      let (ts, st₂) ← defSigGo fuel st₁ rest
      pure (pt :: ts, st₂)

def defSigParamTypes (fuel : Nat) (st : St) (params : Exp) :
    Except Err (List Ty × St) :=
  match params with
  | .list ps => defSigGo fuel st ps
  | _ => .error (.jsError "params.map is not a function")

/-- EvaTC._transformDefToVarLambda. -/
def transformDef (es : List Exp) : Exp :=
  if es.length == 7 && regexAngle (jsToString (es.getD 2 .undefE)) then
    .list [.sym "var", es.getD 1 .undefE,
      .list [.sym "lambda", es.getD 2 .undefE, es.getD 3 .undefE,
        es.getD 4 .undefE, es.getD 5 .undefE, es.getD 6 .undefE]]
  else
    .list [.sym "var", es.getD 1 .undefE,
      .list [.sym "lambda", es.getD 2 .undefE, es.getD 3 .undefE,
        es.getD 4 .undefE, es.getD 5 .undefE]]

/-- EvaTC._isTypeCastCondition: `op === '==' && lhs[0] === 'typeof'`,
short-circuiting (the lhs index is only read when op matches). -/
def isTypeCastCondition (condition : Exp) : Except Err Bool := do
  let (op, lhs) ← destructure2 condition
  match op with
  | .sym "==" => do
      let l0 ← elemAtE lhs 0
      pure (match l0 with | .sym "typeof" => true | _ => false)
  | _ => pure false

/-- EvaTC._getSpecifiedType: the narrowed name and the type-name literal
with its delimiters sliced off (slice exists on strings and arrays only). -/
def getSpecifiedType (condition : Exp) : Except Err (Exp × Exp) := do
  let (_, lhs, spec) ← destructure3 condition
  let (_, nameE) ← destructure2 lhs
  match spec with
  | .sym s => pure (nameE, .sym (stripEnds s))
  | .list ls => pure (nameE, .list ((ls.drop 1).dropLast))
  | _ => .error (.jsError "slice is not a function")

/-- The resolution of the union branch of a type declaration:
`options.map(option => Type.fromString(option))`. -/
def resolveExps (fuel : Nat) (st : St) : List Exp → Except Err (List Ty × St)
  | [] => pure ([], st)
  | e :: rest => do
      let (t, st₁) ← fromString fuel st e
      let (ts, st₂) ← resolveExps fuel st₁ rest
      pure (t :: ts, st₂)

/-- The `(type Name Base)` / `(type Name (or ...))` branch of tc: the union
form registers without a duplicate check, the alias form requires the name
unregistered and the base registered.  Reading base[0] crashes when the
base is missing. -/
def tcType (fuel : Nat) (es : List Exp) (st : St) : Except Err (Option Ty × St) := do
  let nameE := es.getD 1 .undefE
  let base := es.getD 2 .undefE
  let b0 ← elemAtE base 0
  match base, b0 with
  | .list bs, .sym "or" => do
      let (optionTypes, st₁) ← resolveExps fuel st (bs.drop 1)
      let (i, st₂) := freshId st₁
      let u := Ty.union (jsToString nameE) optionTypes i
      pure (some u, regSet st₂ (jsToString nameE) u)
  | _, _ =>
      let key := jsToString nameE
      match regLookup st key with
      | some _ => .error (.duplicateType key)
      | none =>
          match regLookup st (jsToString base) with
          | none => .error (.unknownType (jsToString base))
          | some parent =>
              let (i, st₁) := freshId st
              let a := Ty.alias key parent i
              pure (some a, regSet st₁ key a)

/-- The `(super Name)` branch (no recursion into tc). -/
def tcSuperB (es : List Exp) (st : St) : Except Err (Option Ty × St) :=
  let key := jsToString (es.getD 1 .undefE)
  match regLookup st key with
  | none => .error (.unknownClass key)
  | some t => pure (superOf t, st)

/-- The parameter loop of EvaTC._tcFunction: destructure (or receive) each
name/descriptor pair, resolve the descriptor, record the binding (object
semantics: a repeated name overwrites) and push the parameter type. -/
def tcParamsGo (fuel : Nat) :
    List (Sum Exp (Exp × Exp)) → List (String × Option Ty) → List Ty → St →
    Except Err (List (String × Option Ty) × List Ty × St)
  | [], record, pts, st => pure (record, pts, st)
  | it :: rest, record, pts, st => do
      let (n, t) ← (match it with | .inl e => destructure2 e | .inr p => pure p)
      let (pt, st₁) ← fromString fuel st t
      tcParamsGo fuel rest (setA record (jsToString n) (some pt)) (pts ++ [pt]) st₁

/-- The type of one level of the checker's recursion: tc specialized to
all strictly smaller derivations. -/
def TcRec : Type := Exp → Nat → St → Except Err (Option Ty × St)

/-- EvaTC._tcBlock: check each expression in sequence, returning the last
result (undefined for an empty block). -/
def tcBlockL (rec : TcRec) : List Exp → Nat → St → Except Err (Option Ty × St)
  | [], _, st => pure (none, st)
  | [e], env, st => rec e env st
  | e :: rest, env, st => do
      let (_, st₁) ← rec e env st
      tcBlockL rec rest env st₁

/-- `argValues.map(arg => this.tc(arg, env))`, threading state. -/
def tcArgs (rec : TcRec) : List Exp → Nat → St → Except Err (List (Option Ty) × St)
  | [], _, st => pure ([], st)
  | e :: rest, env, st => do
      let (t, st₁) ← rec e env st
      let (ts, st₂) ← tcArgs rec rest env st₁
      pure (t :: ts, st₂)

/-- EvaTC._tcBody: a begin-headed body is checked as a block directly in
the given environment (no extra scope); anything else goes through tc. -/
def tcBody (rec : TcRec) (body : Exp) (env : Nat) (st : St) :
    Except Err (Option Ty × St) := do
  let h ← elemAtE body 0
  match body, h with
  | .list es, .sym "begin" => tcBlockL rec (es.drop 1) env st
  | b, _ => rec b env st

/-- EvaTC._tcFunction: resolve the declared return type, build the
parameter record and types, check the body in a fresh scope extending the
given environment, require the body's type to equal the declared return
type, and produce the concrete function type. -/
def tcFunction (fuel : Nat) (rec : TcRec) (params : ParamsArg) (retE : Exp)
    (body : Exp) (env : Nat) (st : St) : Except Err (Option Ty × St) := do
  let (retTy, st₁) ← fromString fuel st retE
  let items ← paramsItems params
  let (record, pts, st₂) ← tcParamsGo fuel items [] [] st₁
  let (fnEnv, st₃) := pushFrame st₂ (some env) record
  let (actualRet, st₄) ← tcBody rec body fnEnv st₃
  let r ← equalsU retTy actualRet
  if r then
    let (i, st₅) := freshId st₄
    pure (some (.fn none pts retTy i), st₅)
  else .error .returnMismatch

/-- _binary applied to a bare operator-headed token: exp.length is the
token's character count and the operands are its characters. -/
def tcBinarySym (rec : TcRec) (s : String) (env : Nat) (st : St) :
    Except Err (Option Ty × St) :=
  if s.length ≠ 3 then .error .arity
  else do
    let (t1, st₁) ← rec (charAt s 1) env st
    let (t2, st₂) ← rec (charAt s 2) env st₁
    let allowed ← operandTypesFor (charAt s 0)
    expectOperatorType t1 allowed
    expectOperatorType t2 allowed
    let r ← expectT t2 t1
    pure (r, st₂)

/-- EvaTC._binary: arity, both operand types, the operator's allowed set
(an unknown head throws after the operands are checked), operand/operator
compatibility, then mutual equality; the result is the second operand's
type. -/
def tcBinaryList (rec : TcRec) (es : List Exp) (env : Nat) (st : St) :
    Except Err (Option Ty × St) :=
  if es.length ≠ 3 then .error .arity
  else do
    let (t1, st₁) ← rec (es.getD 1 .undefE) env st
    let (t2, st₂) ← rec (es.getD 2 .undefE) env st₁
    let allowed ← operandTypesFor (es.getD 0 .undefE)
    expectOperatorType t1 allowed
    expectOperatorType t2 allowed
    let r ← expectT t2 t1
    pure (r, st₂)

/-- EvaTC._booleanBinary: two mutually equal operands, boolean result. -/
def tcBoolBinary (rec : TcRec) (es : List Exp) (env : Nat) (st : St) :
    Except Err (Option Ty × St) :=
  if es.length ≠ 3 then .error .arity
  else do
    let (t1, st₁) ← rec (es.getD 1 .undefE) env st
    let (t2, st₂) ← rec (es.getD 2 .undefE) env st₁
    let _ ← expectT t2 t1
    pure (some tyBoolean, st₂)

/-- The `(class Name Super Body)` branch: the superclass property read
falls back to Type.null when the name is unregistered; the class scope is
parented to the superclass scope only for a non-null superclass; the name
is bound in the environment and the registry (overwriting), and the body
is checked in the class scope. -/
def tcClass (rec : TcRec) (es : List Exp) (env : Nat) (st : St) :
    Except Err (Option Ty × St) := do
  let key := jsToString (es.getD 1 .undefE)
  let sup := (regLookup st (jsToString (es.getD 2 .undefE))).getD tyNull
  let parentRef := if jsIs sup tyNull then none else envOf sup
  let (ref, st₁) := pushFrame st parentRef []
  let (i, st₂) := freshId st₁
  let c := Ty.cls key sup ref i
  let st₃ := defineVar st₂ env key (some c)
  let st₄ := regSet st₃ key c
  let (_, st₅) ← tcBody rec (es.getD 3 .undefE) ref st₄
  pure (some c, st₅)

/-- The `(new Class Args...)` branch: resolve the class, check the
arguments, then check a call of the constructor field with the class type
prepended. -/
def tcNew (rec : TcRec) (es : List Exp) (env : Nat) (st : St) :
    Except Err (Option Ty × St) := do
  let key := jsToString (es.getD 1 .undefE)
  match regLookup st key with
  | none => .error (.unknownClass key)
  | some classType => do
      let (argTypes, st₁) ← tcArgs rec (es.drop 2) env st
      let ctor ← getField st₁ (some classType) "constructor"
      let r ← checkFunctionCall ctor (some classType :: argTypes)
      pure (r, st₁)

/-- The `(prop Instance Name)` branch. -/
def tcProp (rec : TcRec) (es : List Exp) (env : Nat) (st : St) :
    Except Err (Option Ty × St) := do
  let (instT, st₁) ← rec (es.getD 1 .undefE) env st
  let f ← getField st₁ instT (jsToString (es.getD 2 .undefE))
  pure (f, st₁)

/-- The `(var Name Value)` branch: the value type is inferred first; a
bracketed name resolves the declared descriptor, requires the value type
to equal it and binds the declared type; a simple name binds the inferred
type. -/
def tcVar (fuel : Nat) (rec : TcRec) (es : List Exp) (env : Nat) (st : St) :
    Except Err (Option Ty × St) := do
  let nameE := es.getD 1 .undefE
  let (valueType, st₁) ← rec (es.getD 2 .undefE) env st
  match nameE with
  | .list _ => do
      let (varName, typeE) ← destructure2 nameE
      let (expected, st₂) ← fromString fuel st₁ typeE
      let _ ← expectT valueType (some expected)
      pure (some expected, defineVar st₂ env (jsToString varName) (some expected))
  | _ => pure (valueType, defineVar st₁ env (jsToString nameE) valueType)

/-- The `(set Ref Value)` branch: a property reference checks the instance,
the value, the field type, and requires the value to match the field; a
simple reference requires the value to match the reference's read type. -/
def tcSet (rec : TcRec) (es : List Exp) (env : Nat) (st : St) :
    Except Err (Option Ty × St) := do
  let ref := es.getD 1 .undefE
  let value := es.getD 2 .undefE
  let r0 ← elemAtE ref 0
  match ref, r0 with
  | .list rs, .sym "prop" => do
      let (instT, st₁) ← rec (rs.getD 1 .undefE) env st
      let (valueType, st₂) ← rec value env st₁
      let propType ← getField st₂ instT (jsToString (rs.getD 2 .undefE))
      let r ← expectT valueType propType
      pure (r, st₂)
  | _, _ => do
      let (valueType, st₁) ← rec value env st
      let (varType, st₂) ← rec ref env st₁
      let r ← expectT valueType varType
      pure (r, st₂)

/-- The if branch: boolean condition; when the condition is a type-cast
shape the consequent is checked in a child scope rebinding the queried
name to the named type, the alternative always in the original scope; the
branch types must agree (alternative checked against consequent) and the
alternative's type is returned. -/
def tcIf (fuel : Nat) (rec : TcRec) (es : List Exp) (env : Nat) (st : St) :
    Except Err (Option Ty × St) := do
  let condition := es.getD 1 .undefE
  let (t1, st₁) ← rec condition env st
  let _ ← expectT t1 (some tyBoolean)
  let isCast ← isTypeCastCondition condition
  let (consEnv, st₂) ←
    if isCast then do
      let (nameE, strippedE) ← getSpecifiedType condition
      let (castT, stA) ← fromString fuel st₁ strippedE
      let (ref, stB) := pushFrame stA (some env) [(jsToString nameE, some castT)]
      pure (ref, stB)
    else pure (env, st₁)
  let (t2, st₃) ← rec (es.getD 2 .undefE) consEnv st₂
  let (t3, st₄) ← rec (es.getD 3 .undefE) env st₃
  let r ← expectT t3 t2
  pure (r, st₄)

/-- The while branch: boolean condition, body's type as result. -/
def tcWhile (rec : TcRec) (es : List Exp) (env : Nat) (st : St) :
    Except Err (Option Ty × St) := do
  let (t1, st₁) ← rec (es.getD 1 .undefE) env st
  let _ ← expectT t1 (some tyBoolean)
  rec (es.getD 2 .undefE) env st₁

/-- The def branch: transpiled to var-of-lambda; a non-generic def first
resolves the declared signature and pre-binds the function name to it in
the enclosing environment, before the lambda (and hence the body) is
checked. -/
def tcDef (fuel : Nat) (rec : TcRec) (es : List Exp) (env : Nat) (st : St) :
    Except Err (Option Ty × St) :=
  let varExp := transformDef es
  if es.length == 7 && regexAngle (jsToString (es.getD 2 .undefE)) then
    rec varExp env st
  else do
    let (pts, st₁) ← defSigParamTypes fuel st (es.getD 2 .undefE)
    let (rt, st₂) ← fromString fuel st₁ (es.getD 4 .undefE)
    let (i, st₃) := freshId st₂
    let st₄ := defineVar st₃ env (jsToString (es.getD 1 .undefE))
      (some (.fn none pts rt i))
    rec varExp env st₄

/-- The lambda branch: a generic shape (6 elements with an angle-bracket
second element) is captured unchecked as a generic function closure; the
simple shape is checked immediately. -/
def tcLambda (fuel : Nat) (rec : TcRec) (es : List Exp) (env : Nat) (st : St) :
    Except Err (Option Ty × St) :=
  if es.length == 6 && regexAngle (jsToString (es.getD 1 .undefE)) then
    match es.getD 1 .undefE with
    | .sym g =>
        let gstr := stripEnds g
        let (i, st₁) := freshId st
        pure (some (.generic ("lambda <" ++ gstr ++ ">") (splitOnChar ',' gstr)
          (es.getD 2 .undefE) (es.getD 4 .undefE) (es.getD 5 .undefE) env i), st₁)
    | _ => .error (.jsError "genericTypesStr.split is not a function")
  else
    tcFunction fuel rec (.raw (es.getD 1 .undefE)) (es.getD 3 .undefE)
      (es.getD 4 .undefE) env st

/-- Function calls: the head is checked; a generic head requires the
actual-type list, is instantiated through the substitution map and its
body re-checked in the closure environment, with arguments starting at
index 2; otherwise arguments start at index 1.  Arguments are checked in
the caller's environment and then validated against the callee. -/
def tcCall (fuel : Nat) (rec : TcRec) (es : List Exp) (env : Nat) (st : St) :
    Except Err (Option Ty × St) := do
  let (fn, st₁) ← rec (es.getD 0 .undefE) env st
  match fn with
  | some (.generic _ gTypes gParams gRet gBody gEnv _) => do
      let actuals ← extractActualCallTypes es
      let m := mkGenericMap gTypes actuals
      let bound ← bindParams m (paramElems gParams)
      let boundRet := bindParamType m gRet
      let (actualFn, st₂) ← tcFunction fuel rec (.bound bound) boundRet gBody gEnv st₁
      let (argTypes, st₃) ← tcArgs rec (es.drop 2) env st₂
      let r ← checkFunctionCall actualFn argTypes
      pure (r, st₃)
  | _ => do
      let (argTypes, st₂) ← tcArgs rec (es.drop 1) env st₁
      let r ← checkFunctionCall fn argTypes
      pure (r, st₂)

/-- EvaTC.tc: infers and validates the type of an expression, dispatching
on its syntactic shape in source order.  Fuel bounds the nesting depth of
the JS recursion (which can diverge, e.g. through generic calls); one unit
is consumed per recursive entry. -/
def tc : Nat → Exp → Nat → St → Except Err (Option Ty × St)
  | 0, _, _, _ => .error .fuel
  | fuel + 1, exp, env, st =>
      match exp with
      | .num _ => pure (some tyNumber, st)
      | .bool _ => pure (some tyBoolean, st)
      | .undefE => .error (.jsError "cannot read properties of undefined")
      | .sym s =>
          -- order: string literal, boolean token, operator-headed token
          -- (_isBinary reads the first character), then variable access.
          if isStringLit s then pure (some tyString, st)
          else if s == "true" || s == "false" then pure (some tyBoolean, st)
          else if (match s.data.head? with
              | some c => isOpChar c
              | none => false) then
            tcBinarySym (tc fuel) s env st
          else if isVarName s then do
            let v ← envLookup st env s
            pure (v, st)
          else .error .unknownExpr
      | .list es =>
          let hd := es.getD 0 .undefE
          if (match (jsToString hd).data with
              | [c] => isOpChar c
              | _ => false) then
            tcBinaryList (tc fuel) es env st
          else if (match hd with
              | .sym s =>
                  s == "==" || s == "!=" || s == ">=" || s == "<=" ||
                  s == ">" || s == "<"
              | _ => false) then
            tcBoolBinary (tc fuel) es env st
          else
            match hd with
            | .sym "type" => tcType fuel es st
            | .sym "class" => tcClass (tc fuel) es env st
            | .sym "new" => tcNew (tc fuel) es env st
            | .sym "super" => tcSuperB es st
            | .sym "prop" => tcProp (tc fuel) es env st
            | .sym "var" => tcVar fuel (tc fuel) es env st
            | .sym "set" => tcSet (tc fuel) es env st
            | .sym "begin" =>
                let (ref, st₁) := pushFrame st (some env) []
                tcBlockL (tc fuel) (es.drop 1) ref st₁
            | .sym "if" => tcIf fuel (tc fuel) es env st
            | .sym "while" => tcWhile (tc fuel) es env st
            | .sym "def" => tcDef fuel (tc fuel) es env st
            | .sym "lambda" => tcLambda fuel (tc fuel) es env st
            | _ => tcCall fuel (tc fuel) es env st

/-- The registry as the checker boots: the five primitive properties of the
Type class. -/
def baseSt : St :=
  { reg := [("number", tyNumber), ("string", tyString), ("boolean", tyBoolean),
      ("null", tyNull), ("any", tyAny)],
    frames := [], nextId := 0 }

/-- EvaTC._createGlobal: the global scope with VERSION and the built-in
function descriptors (whose parses are memoized into the registry). -/
def mkGlobal : Except Err (Nat × St) := do
  let (sumT, s1) ← fromString 9 baseSt (.sym "Fn<number<number,number>>")
  let (sqT, s2) ← fromString 9 s1 (.sym "Fn<number<number>>")
  let (tofT, s3) ← fromString 9 s2 (.sym "Fn<string<any>>")
  let (g, s4) := pushFrame s3 none
    [("VERSION", some tyString), ("sum", some sumT), ("square", some sqT),
     ("typeof", some tofT)]
  pure (g, s4)

/-- EvaTC.tcGlobal: check a program in a fresh checker instance. -/
def tcGlobalProg (fuel : Nat) (e : Exp) : Except Err (Option Ty × St) := do
  let (g, st) ← mkGlobal
  tcBody (tc fuel) e g st

/-- The inferred type of a finished check (none on failure). -/
def resultTy (r : Except Err (Option Ty × St)) : Option (Option Ty) :=
  match r with
  | .ok (t, _) => some t
  | .error _ => none

/-- The error of a failed check. -/
def resultErr (r : Except Err (Option Ty × St)) : Option Err :=
  match r with
  | .ok _ => none
  | .error e => some e

/-- The registry entry for a name after a check. -/
def regAfter (r : Except Err (Option Ty × St)) (n : String) : Option Ty :=
  match r with
  | .ok (_, st) => regLookup st n
  | .error _ => none

/-- Whether a check succeeded. -/
def isOkRes (r : Except Err (Option Ty × St)) : Bool :=
  match r with
  | .ok _ => true
  | .error _ => false

-- ==================================================================
-- Auxiliary definitions for the verification layer.

/-- Whether a structural-equality run returned true. -/
def isOkTrue : Except Err Bool → Bool
  | .ok true => true
  | _ => false

/-- Whether a type value is one of the primitive singletons. -/
def isPrimTy : Ty → Bool
  | .prim _ => true
  | _ => false

/-- The alias chain of a type value: itself, and for an alias also its
parent's chain. -/
def spine : Ty → List Ty
  | .alias n p i => .alias n p i :: spine p
  | t => [t]

/-- Whether no function type appears on the alias chain (the receivers
visited when an alias chain is being compared). -/
def spineFnFree : Ty → Bool
  | .fn _ _ _ _ => false
  | .alias _ p _ => spineFnFree p
  | _ => true

/-- The factorial program of the specification: a recursive `def`. -/
def factProg : Exp :=
  .list [.sym "def", .sym "fact", .list [.list [.sym "n", .sym "number"]],
    .sym "->", .sym "number",
    .list [.sym "if", .list [.sym "==", .sym "n", .num 0], .num 1,
      .list [.sym "*", .sym "n",
        .list [.sym "fact", .list [.sym "-", .sym "n", .num 1]]]]]

/-- The generic identity lambda `(lambda <T> ((x T)) -> T x)`. -/
def idLam : Exp :=
  .list [.sym "lambda", .sym "<T>", .list [.list [.sym "x", .sym "T"]],
    .sym "->", .sym "T", .sym "x"]

/-- A two-parameter generic lambda `(lambda <T,U> ((x T) (y U)) -> T x)`. -/
def pairLam : Exp :=
  .list [.sym "lambda", .sym "<T,U>",
    .list [.list [.sym "x", .sym "T"], .list [.sym "y", .sym "U"]],
    .sym "->", .sym "T", .sym "x"]

/-- Narrowing demonstration: a union-typed x is multiplied (a number-only
operation) inside the narrowed consequent, read back as the union in the
alternative and after the conditional. -/
def narrowProg : Exp := .list [.sym "begin",
  .list [.sym "type", .sym "su", .list [.sym "or", .sym "number", .sym "string"]],
  .list [.sym "var", .list [.sym "x", .sym "su"], .num 10],
  .list [.sym "if", .list [.sym "==", .list [.sym "typeof", .sym "x"], .sym "\"number\""],
    .list [.sym "*", .sym "x", .num 2], .sym "x"],
  .sym "x"]

/-- The same union name declared twice. -/
def dupUnionProg : Exp := .list [.sym "begin",
  .list [.sym "type", .sym "T", .list [.sym "or", .sym "number", .sym "string"]],
  .list [.sym "type", .sym "T", .list [.sym "or", .sym "boolean"]]]

/-- The same class name declared twice. -/
def dupClassProg : Exp := .list [.sym "begin",
  .list [.sym "class", .sym "C", .sym "null", .list [.sym "begin"]],
  .list [.sym "class", .sym "C", .sym "null", .list [.sym "begin"]]]

/-- A class whose superclass name is registered nowhere. -/
def classUnknownSuperProg : Exp :=
  .list [.sym "class", .sym "C", .sym "Unknown", .list [.sym "begin"]]

/-- Widening through a declared union name, then reading the variable. -/
def wideningProg : Exp := .list [.sym "begin",
  .list [.sym "type", .sym "value", .list [.sym "or", .sym "number", .sym "string"]],
  .list [.sym "var", .list [.sym "y", .sym "value"], .num 10],
  .sym "y"]

/-- `(var x 10)` then `(set x "str")`. -/
def setMismatchProg : Exp := .list [.sym "begin",
  .list [.sym "var", .sym "x", .num 10],
  .list [.sym "set", .sym "x", .sym "\"str\""]]

/-- `(var (y (or number string)) 10)` with the union written inline in the
descriptor position. -/
def inlineUnionVarProg : Exp := .list [.sym "var",
  .list [.sym "y", .list [.sym "or", .sym "number", .sym "string"]], .num 10]

/-- A hand-built checker state binding x to a union and typeof to the
built-in query function, used to exercise narrowing. -/
def stX : St :=
  { reg := baseSt.reg,
    frames := [⟨none, [("x", some (Ty.union "su" [tyNumber, tyString] 3)),
      ("typeof", some (Ty.fn (some "Fn<string<any>>") [tyAny] tyString 9))]⟩],
    nextId := 10 }

-- ==================================================================
-- General lemmas.

@[simp] lemma pureExcept {α : Type} (a : α) : (pure a : Except Err α) = .ok a := rfl

@[simp] lemma bindOkE {α β : Type} (a : α) (f : α → Except Err β) :
    (Except.ok a >>= f : Except Err β) = f a := rfl

@[simp] lemma bindErrE {α β : Type} (e : Err) (f : α → Except Err β) :
    (Except.error e >>= f : Except Err β) = .error e := rfl

lemma isOkTrue_ok (b : Bool) : isOkTrue (.ok b) = b := by
  cases b <;> rfl

lemma tySize_pos (t : Ty) : 1 ≤ tySize t := by
  cases t <;> (simp [tySize]; try omega)

lemma tySizeL_mem {os : List Ty} {t : Ty} (h : t ∈ os) : tySize t ≤ tySizeL os := by
  induction os with
  | nil => cases h
  | cons o rest ih =>
      rcases List.mem_cons.mp h with h2 | h2
      · subst h2; simp [tySizeL]
      · have := ih h2
        simp [tySizeL]
        omega

/-- Enough fuel makes the fueled equality reflexive on every type value. -/
theorem equalsF_refl : ∀ (k : Nat) (t : Ty), tySize t ≤ k → equalsF k t t = .ok true := by
  intro k
  induction k with
  | zero =>
      intro t ht
      have := tySize_pos t
      omega
  | succ k ih =>
      intro t ht
      match t with
      | .prim p => simp [equalsF, getName]
      | .generic n g ps r b e i => simp [equalsF, getName]
      | .alias n p i => simp [equalsF, getName]
      | .cls n s e i => simp [equalsF, jsIs]
      | .union n os i => simp [equalsF, jsIs]
      | .fn nm ps r i =>
          simp only [equalsF]
          have hps : tySizeL ps ≤ k := by simp [tySize] at ht; omega
          have hr : tySize r ≤ k := by simp [tySize] at ht; omega
          have hlist : ∀ l : List Ty, tySizeL l ≤ k →
              eqListF (equalsF k) l l = .ok true := by
            intro l
            induction l with
            | nil => intro _; rfl
            | cons o rest ihl =>
                intro hl
                have ho : tySize o ≤ k := by simp [tySizeL] at hl; omega
                have hrest : tySizeL rest ≤ k := by simp [tySizeL] at hl; omega
                simp only [eqListF, ih o ho, ihl hrest]
                rfl
          simp [hlist ps hps, ih r hr]

/-- Reflexivity of Type.js equals. -/
theorem equals_refl (t : Ty) : equals t t = .ok true :=
  equalsF_refl (tySize t + tySize t) t (by have := tySize_pos t; omega)

lemma spine_self (q : Ty) : q ∈ spine q := by
  match q with
  | .alias n p i => simp [spine]
  | .prim s => simp [spine]
  | .fn a b c d => simp [spine]
  | .cls a b c d => simp [spine]
  | .union a b c => simp [spine]
  | .generic a b c d e f g => simp [spine]

lemma spine_subset : ∀ (k : Nat) (p q : Ty), tySize p ≤ k → q ∈ spine p →
    ∀ x ∈ spine q, x ∈ spine p := by
  intro k
  induction k with
  | zero => intro p q hp; have := tySize_pos p; omega
  | succ k ih =>
      intro p q hp hq x hx
      match p with
      | .alias n pr i =>
          rcases List.mem_cons.mp hq with h | h
          · subst h; exact hx
          · have hpr : tySize pr ≤ k := by simp [tySize] at hp; omega
            exact List.mem_cons_of_mem _ (ih pr q hpr h x hx)
      | .prim s => simp [spine] at hq; subst hq; exact hx
      | .fn a b c d => simp [spine] at hq; subst hq; exact hx
      | .cls a b c d => simp [spine] at hq; subst hq; exact hx
      | .union a b c => simp [spine] at hq; subst hq; exact hx
      | .generic a b c d e f g => simp [spine] at hq; subst hq; exact hx

/-- Chasing an alias chain down to one of its members yields true. -/
lemma equalsF_spine : ∀ (k : Nat) (q x : Ty), x ∈ spine q → tySize q ≤ k →
    equalsF k q x = .ok true := by
  intro k
  induction k with
  | zero => intro q x _ hq; have := tySize_pos q; omega
  | succ k ih =>
      intro q x hx hq
      match q with
      | .alias n p i =>
          rcases List.mem_cons.mp hx with h | h
          · subst h
            exact equalsF_refl (k + 1) _ hq
          · simp only [equalsF]
            by_cases hb : (n == getName x)
            · simp [hb]
            · have hp : tySize p ≤ k := by simp [tySize] at hq; omega
              simp [hb, ih p x h hp]
      | .prim s =>
          simp [spine] at hx; subst hx; exact equalsF_refl (k + 1) _ hq
      | .fn a b c d =>
          simp [spine] at hx; subst hx; exact equalsF_refl (k + 1) _ hq
      | .cls a b c d =>
          simp [spine] at hx; subst hx; exact equalsF_refl (k + 1) _ hq
      | .union a b c =>
          simp [spine] at hx; subst hx; exact equalsF_refl (k + 1) _ hq
      | .generic a b c d e f g =>
          simp [spine] at hx; subst hx; exact equalsF_refl (k + 1) _ hq

/-- A fn-free value equals any alias it sits under the chain of. -/
lemma equalsF_to_alias : ∀ (k : Nat) (q : Ty) (n : String) (p : Ty) (i : Nat),
    spineFnFree q = true → q ∈ spine p → tySize p + tySize q ≤ k →
    equalsF k q (.alias n p i) = .ok true := by
  intro k
  induction k with
  | zero =>
      intro q n p i _ _ hk
      have := tySize_pos q
      have := tySize_pos p
      omega
  | succ k ih =>
      intro q n p i hfree hmem hk
      match q with
      | .alias m pr j =>
          simp only [equalsF]
          by_cases hb : (m == getName (Ty.alias n p i))
          · simp [hb]
          · have hpr : pr ∈ spine p := by
              have h1 : pr ∈ spine (Ty.alias m pr j) := by
                simp [spine]
                exact Or.inr (spine_self pr)
              exact spine_subset (tySize p) p _ le_rfl hmem pr h1
            have hfree2 : spineFnFree pr = true := by simpa [spineFnFree] using hfree
            have hk2 : tySize p + tySize pr ≤ k := by simp [tySize] at hk; omega
            simp [hb, ih pr n p i hfree2 hpr hk2]
      | .prim s =>
          simp only [equalsF]
          by_cases hb : (n == getName (Ty.prim s))
          · simp [hb]
          · have : tySize p ≤ k := by simp [tySize] at hk; omega
            simp [hb, equalsF_spine k p _ hmem this]
      | .generic a b c d e f g =>
          simp only [equalsF]
          by_cases hb : (n == getName (Ty.generic a b c d e f g))
          · simp [hb]
          · have : tySize p ≤ k := by simp [tySize] at hk; omega
            simp [hb, equalsF_spine k p _ hmem this]
      | .cls a s e j =>
          simp only [equalsF]
          have hid : jsIs (Ty.cls a s e j) (Ty.alias n p i) = false := by simp [jsIs]
          by_cases hb : (n == a)
          · simp [hid, hb]
          · have : tySize p ≤ k := by simp [tySize] at hk; omega
            simp [hid, hb, equalsF_spine k p _ hmem this]
      | .union a os j =>
          simp only [equalsF]
          have hid : jsIs (Ty.union a os j) (Ty.alias n p i) = false := by simp [jsIs]
          by_cases hb : (n == a)
          · simp [hid, hb]
          · have : tySize p ≤ k := by simp [tySize] at hk; omega
            simp [hid, hb, equalsF_spine k p _ hmem this]

lemma equalsF_prim_prim (k : Nat) (q p : String) :
    equalsF (k + 1) (.prim q) (.prim p) = .ok (q == p) := by
  simp [equalsF, getName]

lemma equals_prim_prim (q p : String) :
    equals (.prim q) (.prim p) = .ok (q == p) := by
  simp [equals, tySize]
  exact equalsF_prim_prim 1 q p

lemma isPrimTy_elim {o : Ty} (h : isPrimTy o = true) : ∃ s, o = .prim s := by
  match o with
  | .prim s => exact ⟨s, rfl⟩
  | .fn a b c d => simp [isPrimTy] at h
  | .alias a b c => simp [isPrimTy] at h
  | .cls a b c d => simp [isPrimTy] at h
  | .union a b c => simp [isPrimTy] at h
  | .generic a b c d e f g => simp [isPrimTy] at h

lemma anyEqualsF_prims : ∀ (os : List Ty) (k : Nat) (p : String),
    (∀ o ∈ os, isPrimTy o = true) → 1 ≤ k →
    anyEqualsF (equalsF k) os (.prim p) =
      .ok (os.any (fun o => getName o == p)) := by
  intro os
  induction os with
  | nil => intro k p _ _; rfl
  | cons o rest ih =>
      intro k p hos hk
      obtain ⟨s, rfl⟩ := isPrimTy_elim (hos o (List.mem_cons_self o rest))
      obtain ⟨k2, rfl⟩ : ∃ k2, k = k2 + 1 := ⟨k - 1, by omega⟩
      have hrest : ∀ o ∈ rest, isPrimTy o = true := by
        intro o ho; exact hos o (List.mem_cons_of_mem _ ho)
      by_cases hb : (s == p)
      · simp [anyEqualsF, equalsF_prim_prim, hb, List.any_cons, getName]
      · simp [anyEqualsF, equalsF_prim_prim, hb, List.any_cons, getName,
          ih (k2 + 1) p hrest (by omega)]

/-- A union of primitives equals a primitive exactly when some option has
its name. -/
lemma equals_union_prim (n : String) (os : List Ty) (i : Nat) (p : String)
    (hos : ∀ o ∈ os, isPrimTy o = true) :
    equals (.union n os i) (.prim p) = .ok (os.any (fun o => getName o == p)) := by
  have h1 : tySize (Ty.union n os i) + tySize (Ty.prim p) = (1 + tySizeL os) + 1 := by
    simp [tySize]
  rw [equals, h1]
  show equalsF ((1 + tySizeL os) + 1) _ _ = _
  simp only [equalsF]
  have hid : jsIs (Ty.union n os i) (Ty.prim p) = false := by simp [jsIs]
  simp [hid, anyEqualsF_prims os (1 + tySizeL os) p hos (by omega)]

lemma any_isOkTrue_prims (os : List Ty) (p : String)
    (hos : ∀ o ∈ os, isPrimTy o = true) :
    (os.any (fun o => isOkTrue (equals o (.prim p)))) =
      (os.any (fun o => getName o == p)) := by
  induction os with
  | nil => rfl
  | cons o rest ih =>
      obtain ⟨s, rfl⟩ := isPrimTy_elim (hos o (List.mem_cons_self o rest))
      have hrest : ∀ o ∈ rest, isPrimTy o = true := by
        intro o ho; exact hos o (List.mem_cons_of_mem _ ho)
      simp only [List.any_cons, equals_prim_prim, isOkTrue_ok, getName, ih hrest]

/-- The includesAll loop over primitive allowed types, in terms of the
per-element equality runs. -/
lemma allEqualsF_union_prims : ∀ (alw : List Ty) (n : String) (os : List Ty) (i : Nat),
    (∀ a ∈ alw, isPrimTy a = true) → (∀ o ∈ os, isPrimTy o = true) →
    allEqualsF equals (.union n os i) alw =
      .ok (alw.all (fun a => os.any (fun o => isOkTrue (equals o a)))) := by
  intro alw
  induction alw with
  | nil => intro n os i _ _; rfl
  | cons a rest ih =>
      intro n os i halw hos
      obtain ⟨p, rfl⟩ := isPrimTy_elim (halw a (List.mem_cons_self a rest))
      have hrest : ∀ a ∈ rest, isPrimTy a = true := by
        intro x hx; exact halw x (List.mem_cons_of_mem _ hx)
      rw [show allEqualsF equals (Ty.union n os i) (Ty.prim p :: rest) =
        (do
          let r ← equals (Ty.union n os i) (Ty.prim p)
          if r then allEqualsF equals (Ty.union n os i) rest else pure false) from rfl]
      rw [equals_union_prim n os i p hos]
      rw [← any_isOkTrue_prims os p hos]
      by_cases hb : (os.any (fun o => isOkTrue (equals o (.prim p))))
      · simp [hb, ih n os i hrest hos]
      · simp [hb]

-- ==================================================================
-- Claim theorems.

/-- C1 (counterexample): a union with the single option {number} has every
member option in the allowed set {string, number} of `+`, yet
_expectOperatorType rejects it, because includesAll first requires the
option count to equal the allowed-set size. -/
theorem union_operand_allowed_claim_cex :
    ([tyNumber].all fun o => plusTypes.any fun a => isOkTrue (equals o a)) = true
    ∧ expectOperatorType (some (.union "U" [tyNumber] 100)) plusTypes =
        .error .operatorType :=
  ⟨rfl, rfl⟩

/-- C1 (amended): a union-typed operand of an arithmetic operator is
accepted iff the union includes all of the operator's allowed types: the
allowed-set size equals the option count and every allowed type is
equalled by some member option (stated for unions of primitives, where
equality cannot crash).  In particular a union over {string, number} is
accepted for `+` and a union over {string, boolean} is rejected. -/
theorem union_operand_includesAll :
    (∀ (n : String) (os : List Ty) (i : Nat) (alw : List Ty),
      (alw = plusTypes ∨ alw = numTypes) → (∀ o ∈ os, isPrimTy o = true) →
      (expectOperatorType (some (.union n os i)) alw = .ok () ↔
        alw.length = os.length ∧
          ∀ a ∈ alw, ∃ o ∈ os, isOkTrue (equals o a) = true))
    ∧ expectOperatorType (some (.union "su" [tyString, tyNumber] 50)) plusTypes = .ok ()
    ∧ expectOperatorType (some (.union "sb" [tyString, tyBoolean] 51)) plusTypes =
        .error .operatorType := by
  refine ⟨?_, rfl, rfl⟩
  intro n os i alw halw hos
  have halwprim : ∀ a ∈ alw, isPrimTy a = true := by
    rcases halw with h | h <;> subst h <;> decide
  by_cases hl : alw.length = os.length
  · simp only [expectOperatorType, includesAll, hl]
    simp only [ne_eq, not_true_eq_false, if_false]
    rw [allEqualsF_union_prims alw n os i halwprim hos]
    by_cases hb : (alw.all (fun a => os.any (fun o => isOkTrue (equals o a))))
    · simp only [hb, bindOkE, if_true]
      simp only [List.all_eq_true, List.any_eq_true] at hb
      exact ⟨fun _ => ⟨by simp [hl], hb⟩, fun _ => rfl⟩
    · simp only [hb, bindOkE, if_false]
      constructor
      · intro h; cases h
      · intro h
        exfalso
        apply hb
        simp only [List.all_eq_true, List.any_eq_true]
        exact h.2
  · have hne : alw.length ≠ os.length := hl
    simp only [expectOperatorType, includesAll]
    simp only [ne_eq, hne, not_false_iff, if_true, bindOkE, Bool.false_eq_true, if_false]
    constructor
    · intro h
      simp at h
    · intro h
      exact absurd (by simpa using h.1) hl

/-- C1 (witness): the characterization instantiated at a concrete union
and the allowed set of `+`. -/
theorem union_operand_includesAll_witness :
    expectOperatorType (some (.union "w" [tyNumber, tyNumber] 60)) plusTypes = .ok () ↔
      plusTypes.length = [tyNumber, tyNumber].length ∧
        ∀ a ∈ plusTypes, ∃ o ∈ [tyNumber, tyNumber], isOkTrue (equals o a) = true :=
  union_operand_includesAll.1 "w" [tyNumber, tyNumber] 60 plusTypes (Or.inl rfl)
    (by decide)

/-- C2: when an if-condition has the exact type-cast shape — an equality
test between a typeof query on a bare name and a quoted type-name literal —
the consequent is checked in a freshly pushed child scope rebinding that
name to the named type, while the alternative is checked in the original
environment; and the concrete narrowing program multiplies the union-typed
x inside the consequent (number-only), reads x as the union in the
alternative and yields the union after the conditional. -/
theorem if_typeof_narrowing :
    (∀ (fuel : Nat) (name q : String) (cons alt : Exp) (env : Nat)
      (st : St) (t1 : Option Ty) (st₁ : St) (castT : Ty) (st₂ : St),
      tc fuel (.list [.sym "==", .list [.sym "typeof", .sym name], .sym q]) env st =
        .ok (t1, st₁) →
      expectT t1 (some tyBoolean) = .ok t1 →
      fromString fuel st₁ (.sym (stripEnds q)) = .ok (castT, st₂) →
      tc (fuel + 1) (.list [.sym "if",
          .list [.sym "==", .list [.sym "typeof", .sym name], .sym q], cons, alt]) env st =
        (do
          let (t2, st₃) ← tc fuel cons st₂.frames.length
            { st₂ with frames := st₂.frames ++ [⟨some env, [(name, some castT)]⟩] }
          let (t3, st₄) ← tc fuel alt env st₃
          let r ← expectT t3 t2
          pure (r, st₄)))
    ∧ resultTy (tcGlobalProg 50 narrowProg) =
        some (some (.union "su" [tyNumber, tyString] 3)) := by
  refine ⟨?_, rfl⟩
  intro fuel name q cons alt env st t1 st₁ castT st₂ h1 h2 h3
  have step : tc (fuel + 1) (.list [.sym "if",
      .list [.sym "==", .list [.sym "typeof", .sym name], .sym q], cons, alt]) env st
      = (do
          let (t1b, stA) ← tc fuel
            (.list [.sym "==", .list [.sym "typeof", .sym name], .sym q]) env st
          let _ ← expectT t1b (some tyBoolean)
          let (castTb, stB) ← fromString fuel stA (.sym (stripEnds q))
          let (ref, stC) := pushFrame stB (some env) [(name, some castTb)]
          let (t2, st₃) ← tc fuel cons ref stC
          let (t3, st₄) ← tc fuel alt env st₃
          let r ← expectT t3 t2
          pure (r, st₄)) := rfl
  rw [step, h1]
  simp only [bindOkE]
  rw [h2]
  simp only [bindOkE]
  rw [h3]
  simp only [bindOkE]
  rfl

/-- C2 (witness): the narrowing equation instantiated in a state binding x
to a union, with the type-cast condition on "number". -/
theorem if_typeof_narrowing_witness :
    tc 6 (.list [.sym "if",
        .list [.sym "==", .list [.sym "typeof", .sym "x"], .sym "\"number\""],
        .list [.sym "*", .sym "x", .num 2], .num 5]) 0 stX =
      (do
        let (t2, st₃) ← tc 5 (.list [.sym "*", .sym "x", .num 2]) stX.frames.length
          { stX with frames := stX.frames ++ [⟨some 0, [("x", some tyNumber)]⟩] }
        let (t3, st₄) ← tc 5 (.num 5) 0 st₃
        let r ← expectT t3 t2
        pure (r, st₄)) :=
  if_typeof_narrowing.1 5 "x" "\"number\"" (.list [.sym "*", .sym "x", .num 2])
    (.num 5) 0 stX (some tyBoolean) stX tyNumber stX rfl rfl rfl

/-- C3: a non-generic def first resolves the declared signature and binds
the function's name to the resulting function type in the enclosing
environment, and only then checks the var-of-lambda (and hence the body);
the recursive factorial program type-checks to Fn of one number parameter
returning number. -/
theorem def_prebinds_signature :
    (∀ (fuel : Nat) (name : String) (params arrow ret body : Exp) (env : Nat)
      (st : St) (pts : List Ty) (st₁ : St) (rt : Ty) (st₂ : St),
      defSigParamTypes fuel st params = .ok (pts, st₁) →
      fromString fuel st₁ ret = .ok (rt, st₂) →
      tc (fuel + 1) (.list [.sym "def", .sym name, params, arrow, ret, body]) env st =
        tc fuel (.list [.sym "var", .sym name,
            .list [.sym "lambda", params, arrow, ret, body]]) env
          (defineVar { st₂ with nextId := st₂.nextId + 1 } env name
            (some (.fn none pts rt st₂.nextId))))
    ∧ resultTy (tcGlobalProg 50 factProg) =
        some (some (.fn none [tyNumber] tyNumber 4)) := by
  refine ⟨?_, rfl⟩
  intro fuel name params arrow ret body env st pts st₁ rt st₂ h1 h2
  have step : tc (fuel + 1) (.list [.sym "def", .sym name, params, arrow, ret, body]) env st
      = (do
          let (pts2, stA) ← defSigParamTypes fuel st params
          let (rt2, stB) ← fromString fuel stA ret
          let (i, stC) := freshId stB
          tc fuel (.list [.sym "var", .sym name,
              .list [.sym "lambda", params, arrow, ret, body]]) env
            (defineVar stC env name (some (.fn none pts2 rt2 i)))) := rfl
  rw [step, h1]
  simp only [bindOkE]
  rw [h2]
  simp only [bindOkE]
  rfl

/-- C3 (witness): the pre-binding equation instantiated at a one-parameter
def over the boot state. -/
theorem def_prebinds_signature_witness :
    tc 6 (.list [.sym "def", .sym "f", .list [.list [.sym "n", .sym "number"]],
        .sym "->", .sym "number", .sym "n"]) 0 baseSt =
      tc 5 (.list [.sym "var", .sym "f",
          .list [.sym "lambda", .list [.list [.sym "n", .sym "number"]],
            .sym "->", .sym "number", .sym "n"]]) 0
        (defineVar { baseSt with nextId := 1 } 0 "f"
          (some (.fn none [tyNumber] tyNumber 0))) :=
  def_prebinds_signature.1 5 "f" (.list [.list [.sym "n", .sym "number"]])
    (.sym "->") (.sym "number") (.sym "n") 0 baseSt [tyNumber] baseSt tyNumber baseSt
    rfl rfl

/-- C4 (counterexample): redeclaring the union name T succeeds, and the
second declaration replaces the first union in the registry, so the
registry is neither duplicate-checked nor append-only for unions. -/
theorem type_redeclaration_cex :
    isOkRes (tcGlobalProg 50 dupUnionProg) = true
    ∧ regAfter (tcGlobalProg 50 dupUnionProg) "T" = some (.union "T" [tyBoolean] 4) :=
  ⟨rfl, rfl⟩

/-- C4 (amended): only the alias form of a type declaration checks for
duplicates — an alias declaration whose name is already registered fails
with DuplicateType for every state — while a class redeclaration succeeds
and overwrites the registry entry (as does the union form, per the
counterexample). -/
theorem type_duplicate_alias_only :
    (∀ (fuel : Nat) (name base : String) (env : Nat) (st : St) (t : Ty),
      regLookup st name = some t →
      tc (fuel + 1) (.list [.sym "type", .sym name, .sym base]) env st =
        .error (.duplicateType name))
    ∧ resultTy (tcGlobalProg 50 dupClassProg) = some (some (.cls "C" tyNull 2 4))
    ∧ regAfter (tcGlobalProg 50 dupClassProg) "C" = some (.cls "C" tyNull 2 4) := by
  refine ⟨?_, rfl, rfl⟩
  intro fuel name base env st t h
  have step : tc (fuel + 1) (.list [.sym "type", .sym name, .sym base]) env st
      = (match regLookup st name with
         | some _ => .error (.duplicateType name)
         | none =>
             match regLookup st base with
             | none => .error (.unknownType base)
             | some parent =>
                 .ok (some (Ty.alias name parent st.nextId),
                   regSet { st with nextId := st.nextId + 1 } name
                     (Ty.alias name parent st.nextId))) := rfl
  rw [step, h]

/-- C4 (witness): redeclaring the primitive name number as an alias fails
with DuplicateType. -/
theorem type_duplicate_alias_only_witness :
    tc 1 (.list [.sym "type", .sym "number", .sym "string"]) 0 baseSt =
      .error (.duplicateType "number") :=
  type_duplicate_alias_only.1 0 "number" "string" 0 baseSt tyNumber rfl

/-- C5 (counterexample): a class whose superclass name resolves nowhere
does not fail — it type-checks to a class whose superclass is the null
sentinel (and whose freshly built scope, frame 1, has no parent). -/
theorem class_unknown_super_cex :
    resultTy (tcGlobalProg 50 classUnknownSuperProg) =
      some (some (.cls "C" tyNull 1 3)) :=
  rfl

/-- C5 (amended): for an unregistered superclass name the class branch
silently falls back to the no-superclass sentinel Type.null: the class
scope is still created (with no parent), the class is registered and bound,
and its empty body checks — no UnknownType/UnknownClass is raised. -/
theorem class_unknown_super_defaults_null :
    ∀ (fuel env : Nat) (st : St) (name sup : String),
    regLookup st sup = none →
    tc (fuel + 1) (.list [.sym "class", .sym name, .sym sup, .list [.sym "begin"]]) env st =
      .ok (some (Ty.cls name tyNull st.frames.length st.nextId),
        regSet
          (defineVar
            { st with frames := st.frames ++ [⟨none, []⟩], nextId := st.nextId + 1 }
            env name (some (Ty.cls name tyNull st.frames.length st.nextId)))
          name (Ty.cls name tyNull st.frames.length st.nextId)) := by
  intro fuel env st name sup h
  have step : tc (fuel + 1) (.list [.sym "class", .sym name, .sym sup, .list [.sym "begin"]]) env st
      = (let sup2 := (regLookup st sup).getD tyNull
         let parentRef := if jsIs sup2 tyNull then none else envOf sup2
         let (ref, st₁) := pushFrame st parentRef []
         let (i, st₂) := freshId st₁
         let c := Ty.cls name sup2 ref i
         let st₃ := defineVar st₂ env name (some c)
         let st₄ := regSet st₃ name c
         (tcBlockL (tc fuel) [] ref st₄).bind (fun p => .ok (some c, p.2))) := rfl
  rw [step, h]
  rfl

/-- C5 (witness): the fallback instantiated over the boot state. -/
theorem class_unknown_super_defaults_null_witness :
    tc 1 (.list [.sym "class", .sym "C", .sym "Unknown", .list [.sym "begin"]]) 0 baseSt =
      .ok (some (Ty.cls "C" tyNull baseSt.frames.length baseSt.nextId),
        regSet
          (defineVar
            { baseSt with
              frames := baseSt.frames ++ [⟨none, []⟩]
              nextId := baseSt.nextId + 1 }
            0 "C" (some (Ty.cls "C" tyNull baseSt.frames.length baseSt.nextId)))
          "C" (Ty.cls "C" tyNull baseSt.frames.length baseSt.nextId)) :=
  class_unknown_super_defaults_null 0 0 baseSt "C" "Unknown" rfl

/-- C6 (counterexample): calling the generic identity with two actual
types for its single generic parameter is not an error — the extra actual
type is silently ignored and the call checks to number. -/
theorem generic_call_extra_actuals_cex :
    resultTy (tcGlobalProg 50 (.list [idLam, .sym "<number,string>", .num 5])) =
      some (some tyNumber) :=
  rfl

/-- C6 (amended): a generic call without the bracketed actual-type list is
an error; actual types are matched positionally (number gives number,
string gives string); supplying fewer actual types than generic parameters
fails (the unbound parameter descriptor becomes undefined and crashes in
fromString), but supplying more is not an error — extras are ignored. -/
theorem generic_call_actual_types :
    resultErr (tcGlobalProg 50 (.list [idLam, .num 5])) = some .noActualTypes
    ∧ resultTy (tcGlobalProg 50 (.list [idLam, .sym "<number>", .num 5])) =
        some (some tyNumber)
    ∧ resultTy (tcGlobalProg 50 (.list [idLam, .sym "<string>", .sym "\"hi\""])) =
        some (some tyString)
    ∧ resultTy (tcGlobalProg 50 (.list [idLam, .sym "<number,string>", .num 5])) =
        some (some tyNumber)
    ∧ resultErr (tcGlobalProg 50 (.list [pairLam, .sym "<number>", .num 5, .num 6])) =
        some (.jsError "typeStr.startsWith is not a function") :=
  ⟨rfl, rfl, rfl, rfl, rfl⟩

/-- C7 (counterexample): the inline union descriptor of
`(var (y (or number string)) 10)` is an array, not a registered type name,
so the check crashes (a JS TypeError at typeStr.startsWith) instead of
succeeding. -/
theorem var_inline_union_descriptor_cex :
    resultErr (tcGlobalProg 50 inlineUnionVarProg) =
      some (.jsError "typeStr.startsWith is not a function") :=
  rfl

/-- C7 (amended): a typed var declaration with a (string) descriptor
requires the inferred value type to equal the resolved declared type —
failing with the expectation error otherwise — and on success binds the
declared type, not the inferred one; widening works when the union is
declared first and referenced by name, and reassigning an inferred number
variable to a string fails with TypeMismatch. -/
theorem var_typed_declaration :
    (∀ (fuel : Nat) (name tstr : String) (value : Exp) (env : Nat)
      (st : St) (vT : Option Ty) (st₁ : St) (eT : Ty) (st₂ : St),
      tc fuel value env st = .ok (vT, st₁) →
      fromString fuel st₁ (.sym tstr) = .ok (eT, st₂) →
      ((expectT vT (some eT) = .ok vT →
          tc (fuel + 1) (.list [.sym "var", .list [.sym name, .sym tstr], value]) env st =
            .ok (some eT, defineVar st₂ env name (some eT)))
        ∧ (∀ e : Err, expectT vT (some eT) = .error e →
          tc (fuel + 1) (.list [.sym "var", .list [.sym name, .sym tstr], value]) env st =
            .error e)))
    ∧ resultTy (tcGlobalProg 50 wideningProg) =
        some (some (.union "value" [tyNumber, tyString] 3))
    ∧ resultErr (tcGlobalProg 50 setMismatchProg) = some .typeMismatch := by
  refine ⟨?_, rfl, rfl⟩
  intro fuel name tstr value env st vT st₁ eT st₂ h1 h2
  have step : tc (fuel + 1) (.list [.sym "var", .list [.sym name, .sym tstr], value]) env st
      = (do
          let (vT2, stA) ← tc fuel value env st
          let (eT2, stB) ← fromString fuel stA (.sym tstr)
          let _ ← expectT vT2 (some eT2)
          pure (some eT2, defineVar stB env name (some eT2))) := rfl
  constructor
  · intro h3
    rw [step, h1]
    simp only [bindOkE]
    rw [h2]
    simp only [bindOkE]
    rw [h3]
    simp only [bindOkE]
    rfl
  · intro e h3
    rw [step, h1]
    simp only [bindOkE]
    rw [h2]
    simp only [bindOkE]
    rw [h3]
    simp only [bindErrE]

/-- C7 (witness): a typed declaration binding y to the declared number
type over the boot state. -/
theorem var_typed_declaration_witness :
    tc 2 (.list [.sym "var", .list [.sym "y", .sym "number"], .num 10]) 0 baseSt =
      .ok (some tyNumber, defineVar baseSt 0 "y" (some tyNumber)) :=
  (var_typed_declaration.1 1 "y" "number" (.num 10) 0 baseSt (some tyNumber) baseSt
    tyNumber baseSt rfl rfl).1 rfl

/-- C8 (counterexample): for the alias myFn over a function parent,
A.equals(P) holds but P.equals(A) crashes with a JS TypeError —
Type.Function.equals reads paramTypes of the alias — so the two directions
do not both hold. -/
theorem equals_alias_function_parent_cex :
    equals (Ty.alias "myFn" (Ty.fn (some "Fn<number>") [] tyNumber 7) 8)
        (Ty.fn (some "Fn<number>") [] tyNumber 7) = .ok true
    ∧ equals (Ty.fn (some "Fn<number>") [] tyNumber 7)
        (Ty.alias "myFn" (Ty.fn (some "Fn<number>") [] tyNumber 7) 8) =
      .error (.jsError "cannot read paramTypes of a non-function") :=
  ⟨rfl, rfl⟩

/-- C8 (amended): equals is reflexive for every type value; an alias
always equals its parent; and the parent equals the alias whenever no
function type occurs on the parent's alias chain (a function parent
crashes instead, per the counterexample). -/
theorem equals_refl_alias_symm :
    (∀ t : Ty, equals t t = .ok true)
    ∧ (∀ (n : String) (p : Ty) (i : Nat), equals (.alias n p i) p = .ok true)
    ∧ (∀ (n : String) (p : Ty) (i : Nat), spineFnFree p = true →
        equals p (.alias n p i) = .ok true) := by
  refine ⟨equals_refl, ?_, ?_⟩
  · intro n p i
    have hp : p ∈ spine (Ty.alias n p i) := List.mem_cons_of_mem _ (spine_self p)
    exact equalsF_spine _ _ _ hp (Nat.le_add_right _ _)
  · intro n p i hfree
    exact equalsF_to_alias _ p n p i hfree (spine_self p) (by simp [tySize]; try omega)

/-- C8 (witness): the primitive number equals an alias declared over it. -/
theorem equals_refl_alias_symm_witness :
    equals tyNumber (.alias "int" tyNumber 9) = .ok true :=
  equals_refl_alias_symm.2.2 "int" tyNumber 9 rfl

/-- C9: the bare tokens true and false, and native booleans, type-check to
boolean in every environment and every state, leaving both untouched — the
boolean branch fires before variable access, so no binding of those names
can ever be read back by an identifier expression. -/
theorem boolean_literals_shadow_lookup :
    ∀ (fuel env : Nat) (st : St) (b : Bool),
    tc (fuel + 1) (.sym "true") env st = .ok (some tyBoolean, st)
    ∧ tc (fuel + 1) (.sym "false") env st = .ok (some tyBoolean, st)
    ∧ tc (fuel + 1) (.bool b) env st = .ok (some tyBoolean, st) := by
  intro fuel env st b
  exact ⟨rfl, rfl, rfl⟩

/-- C10: checking the empty block (begin) never fails: for every
environment and state it opens a child scope and completes with the
undefined result. -/
theorem empty_block_returns_undefined :
    ∀ (fuel env : Nat) (st : St),
    tc (fuel + 1) (.list [.sym "begin"]) env st =
      .ok (none, { st with frames := st.frames ++ [⟨some env, []⟩] }) := by
  intro fuel env st
  rfl

end EvaTC
